import Mathlib

/-!
Verification of the serverless-step-functions plugin controller
(src/lib/index.js) against its natural-language specification.

The file shallowly embeds the controller: the lifecycle hook chains
(package:compileFunctions, package:compileEvents), the invoke workflow
and the post-deploy display step.  JSON-style flat objects are modelled
as association lists of string pairs; promise chains become sequential
execution with early abort on the first rejection; a JavaScript runtime
TypeError (property access on undefined) is modelled as the value none.
-/

namespace StepFns

/-- A flat JSON-style object: an association list from keys to string
values, keys unique by construction of the operations below. -/
abbrev Obj := List (String × String)

/-- Lookup of a key in an object, as JavaScript property access:
none models undefined. -/
def getStr (o : Obj) (k : String) : Option String :=
  (o.find? (fun kv => kv.fst == k)).map (fun kv => kv.snd)

/-- Assignment of one key, keeping the position of an existing key and
appending a new one, as JavaScript property assignment does. -/
def setKey : Obj → String → String → Obj
  | [], k, v => [(k, v)]
  | (k1, v1) :: rest, k, v =>
    if k1 == k then (k, v) :: rest else (k1, v1) :: setKey rest k v

/-- lodash merge of two flat string-valued objects: every key of the
source is assigned into the destination, source values win. -/
def mergeObj (dst src : Obj) : Obj :=
  src.foldl (fun acc kv => setKey acc kv.fst kv.snd) dst

/-- One entry of the execution history returned by getExecutionHistory;
only the executionFailedEventDetails field is consumed by invoke.  An
event without that field carries the empty object (merging it is a
no-op, as lodash merge with undefined is). -/
structure HistoryEvent where
  executionFailedEventDetails : Obj
deriving DecidableEq

/-- The data the Execution Client supplies to one run of the invoke
workflow: the object describeExecution resolves with, and the events
list getExecutionHistory would resolve with. -/
structure InvokeEnv where
  describeResult : Obj
  historyEvents : List HistoryEvent

/-- Observable outcome of the invoke workflow: the objects passed to
logger.log (the leading blank-line log is not represented), the final
process exit code (0 unless assigned), and whether getExecutionHistory
was called. -/
structure InvokeOutcome where
  logged : List Obj
  exitCode : Nat
  historyFetched : Bool
deriving DecidableEq

/-- ServerlessStepFunctions.invoke after describeExecution resolves:
on status FAILED it fetches the history, logs the describe result
merged with the executionFailedEventDetails of the last history event
and sets process.exitCode to 1; on any other status it logs the result
unchanged.  Accessing the last event of an empty history is the
JavaScript TypeError, modelled as none. -/
def invoke (env : InvokeEnv) : Option InvokeOutcome :=
  if getStr env.describeResult "status" = some "FAILED" then
    match env.historyEvents.getLast? with
    | some ev =>
      some { logged := [mergeObj env.describeResult ev.executionFailedEventDetails]
             exitCode := 1
             historyFetched := true }
    | none => none
  else
    some { logged := [env.describeResult], exitCode := 0, historyFetched := false }

/-- C1: when describeExecution reports status FAILED, the invoke
workflow fetches the execution history, logs the
executionFailedEventDetails of the last history event merged into the
describe result, and sets the process exit code to 1. -/
theorem invoke_failed_fetches_history_and_exits_1
    (env : InvokeEnv) (ev : HistoryEvent)
    (hstatus : getStr env.describeResult "status" = some "FAILED")
    (hlast : env.historyEvents.getLast? = some ev) :
    invoke env =
      some { logged := [mergeObj env.describeResult ev.executionFailedEventDetails]
             exitCode := 1
             historyFetched := true } := by
  simp [invoke, hstatus, hlast]

/-- Witness for C1 at a concrete failed execution. -/
theorem invoke_failed_fetches_history_and_exits_1_witness :
    getStr [("status", "FAILED"), ("output", "null")] "status" = some "FAILED" ∧
    ([{ executionFailedEventDetails := [("error", "States.TaskFailed")] }] :
        List HistoryEvent).getLast? =
      some { executionFailedEventDetails := [("error", "States.TaskFailed")] } ∧
    invoke { describeResult := [("status", "FAILED"), ("output", "null")]
             historyEvents := [{ executionFailedEventDetails := [("error", "States.TaskFailed")] }] } =
      some { logged := [[("status", "FAILED"), ("output", "null"), ("error", "States.TaskFailed")]]
             exitCode := 1
             historyFetched := true } :=
  ⟨rfl, rfl,
    invoke_failed_fetches_history_and_exits_1
      { describeResult := [("status", "FAILED"), ("output", "null")]
        historyEvents := [{ executionFailedEventDetails := [("error", "States.TaskFailed")] }] }
      { executionFailedEventDetails := [("error", "States.TaskFailed")] }
      rfl rfl⟩

/-- C7: when the reported status is anything other than FAILED, the
invoke workflow logs the describe result unchanged, leaves the process
exit code at 0 and never fetches the execution history. -/
theorem invoke_not_failed_exit_0_no_history
    (env : InvokeEnv)
    (hstatus : getStr env.describeResult "status" ≠ some "FAILED") :
    invoke env =
      some { logged := [env.describeResult], exitCode := 0, historyFetched := false } := by
  simp [invoke, hstatus]

/-- Witness for C7 at a concrete succeeded execution. -/
theorem invoke_not_failed_exit_0_no_history_witness :
    getStr [("status", "SUCCEEDED")] "status" ≠ some "FAILED" ∧
    invoke { describeResult := [("status", "SUCCEEDED")], historyEvents := [] } =
      some { logged := [[("status", "SUCCEEDED")]], exitCode := 0, historyFetched := false } :=
  ⟨by decide, invoke_not_failed_exit_0_no_history _ (by decide)⟩

/-! ### Lifecycle hook chains

The constructor wires three promise chains (src/lib/index.js lines
122-161).  A chain is a fixed list of phases run sequentially; a
rejected promise skips every later .then handler, so execution stops at
the first failing phase.  Which phases can run is decided up front by
the configuration: the package:compileEvents hook runs
compileScheduledEvents, then httpValidate, then - only when the
validated http events list is nonempty - the twelve-step HTTP chain,
and finally compileCloudWatchEventEvents. -/

/-- The compiler phases reachable from the package:compileFunctions and
package:compileEvents hooks, named as in src/lib/index.js. -/
inductive Phase where
  | compileIamRole
  | compileStateMachines
  | compileActivities
  | compileAlarms
  | compileNotifications
  | compileScheduledEvents
  | httpValidate
  | compileRestApi
  | compileResources
  | compileMethods
  | compileRequestValidators
  | compileAuthorizers
  | compileHttpLambdaPermissions
  | compileCors
  | compileHttpIamRole
  | compileDeployment
  | compileApiKeys
  | compileUsagePlan
  | compileUsagePlanKeys
  | compileCloudWatchEventEvents
deriving DecidableEq

/-- One run of the plugin as the hooks see it: whether each phase
rejects when executed, and how many validated HTTP events the
configuration has (the length of pluginhttpValidated.events). -/
structure PhaseEnv where
  fails : Phase → Bool
  httpEventCount : Nat

/-- Sequential promise-chain execution of a fixed phase list: each
phase runs in order; the first rejecting phase ends the run and every
later phase is skipped.  Returns the executed phases in order and
whether the whole chain resolved. -/
def runChain (env : PhaseEnv) : List Phase → List Phase × Bool
  | [] => ([], true)
  | p :: ps =>
    if env.fails p then ([p], false)
    else
      let r := runChain env ps
      (p :: r.fst, r.snd)

/-- The fixed phase order of the package:compileFunctions hook
(src/lib/index.js lines 128-133). -/
def compileFunctionsPhases : List Phase :=
  [.compileIamRole, .compileStateMachines, .compileActivities,
   .compileAlarms, .compileNotifications]

/-- The twelve-step HTTP compiler chain of the package:compileEvents
hook (src/lib/index.js lines 144-156). -/
def httpChainPhases : List Phase :=
  [.compileRestApi, .compileResources, .compileMethods,
   .compileRequestValidators, .compileAuthorizers,
   .compileHttpLambdaPermissions, .compileCors, .compileHttpIamRole,
   .compileDeployment, .compileApiKeys, .compileUsagePlan,
   .compileUsagePlanKeys]

/-- The phase order of the package:compileEvents hook
(src/lib/index.js lines 134-157): compileScheduledEvents first, then
the synchronous httpValidate call, then the HTTP chain only when the
validated events list is nonempty, then compileCloudWatchEventEvents. -/
def compileEventsPhases (httpEventCount : Nat) : List Phase :=
  [.compileScheduledEvents, .httpValidate] ++
    (if httpEventCount = 0 then [] else httpChainPhases) ++
    [.compileCloudWatchEventEvents]

/-- Execution of the package:compileFunctions hook. -/
def compileFunctionsRun (env : PhaseEnv) : List Phase × Bool :=
  runChain env compileFunctionsPhases

/-- Execution of the package:compileEvents hook. -/
def compileEventsRun (env : PhaseEnv) : List Phase × Bool :=
  runChain env (compileEventsPhases env.httpEventCount)

/-- A chain run either resolves having executed every phase of its
plan, or it aborts at the first failing phase, executing exactly the
failure-free phases before it plus that phase. -/
theorem runChain_first_failure (env : PhaseEnv) :
    ∀ plan : List Phase,
      ((runChain env plan).snd = true ∧ (runChain env plan).fst = plan) ∨
      ((runChain env plan).snd = false ∧
        ∃ l1 p l2, plan = l1 ++ p :: l2 ∧
          (runChain env plan).fst = l1 ++ [p] ∧
          env.fails p = true ∧ ∀ q ∈ l1, env.fails q = false) := by
  intro plan
  induction plan with
  | nil => exact Or.inl ⟨rfl, rfl⟩
  | cons p ps ih =>
    by_cases hp : env.fails p
    · refine Or.inr ⟨?_, [], p, ps, rfl, ?_, hp, by simp⟩ <;> simp [runChain, hp]
    · rcases ih with ⟨hok, htr⟩ | ⟨hok, l1, q, l2, hplan, htr, hq, hl1⟩
      · exact Or.inl ⟨by simp [runChain, hp, hok], by simp [runChain, hp, htr]⟩
      · refine Or.inr ⟨by simp [runChain, hp, hok], p :: l1, q, l2, by simp [hplan], ?_, hq, ?_⟩
        · simp [runChain, hp, htr]
        · intro r hr
          rcases List.mem_cons.mp hr with h | h
          · simpa [h] using hp
          · exact hl1 r h

/-- The executed phases of a chain run are always an initial segment of
the plan, in plan order. -/
theorem runChain_initial_segment (env : PhaseEnv) (plan : List Phase) :
    ∃ rest, plan = (runChain env plan).fst ++ rest := by
  rcases runChain_first_failure env plan with ⟨_, htr⟩ | ⟨_, l1, p, l2, hplan, htr, _, _⟩
  · exact ⟨[], by simp [htr]⟩
  · exact ⟨l2, by rw [htr, hplan]; simp⟩

/-- A chain in which no phase fails executes its whole plan. -/
theorem runChain_all_ok (env : PhaseEnv) (hok : ∀ p, env.fails p = false) :
    ∀ plan : List Phase, runChain env plan = (plan, true) := by
  intro plan
  induction plan with
  | nil => rfl
  | cons p ps ih => simp [runChain, hok p, ih]

/-- A phase found at position i of the executed trace sits at position
i of the plan. -/
theorem runChain_getElem (env : PhaseEnv) (plan : List Phase) (i : Nat) (p : Phase)
    (h : (runChain env plan).fst[i]? = some p) : plan[i]? = some p := by
  obtain ⟨rest, hplan⟩ := runChain_initial_segment env plan
  have hi : i < (runChain env plan).fst.length := (List.getElem?_eq_some.mp h).1
  rw [hplan, List.getElem?_append_left hi]
  exact h

/-- The flattened phase plan of the package:compileEvents hook for a
configuration with at least one validated http event. -/
def eventsPlanWithHttp : List Phase :=
  [.compileScheduledEvents, .httpValidate, .compileRestApi, .compileResources,
   .compileMethods, .compileRequestValidators, .compileAuthorizers,
   .compileHttpLambdaPermissions, .compileCors, .compileHttpIamRole,
   .compileDeployment, .compileApiKeys, .compileUsagePlan, .compileUsagePlanKeys,
   .compileCloudWatchEventEvents]

theorem compileEventsPhases_pos (c : Nat) (hc : c ≠ 0) :
    compileEventsPhases c = eventsPlanWithHttp := by
  simp [compileEventsPhases, hc, httpChainPhases, eventsPlanWithHttp]

theorem compileEventsPhases_zero :
    compileEventsPhases 0 =
      [.compileScheduledEvents, .httpValidate, .compileCloudWatchEventEvents] := rfl

theorem eventsPlanWithHttp_http_idx (i : Nat) (p : Phase)
    (hp : p ∈ httpChainPhases) (h : eventsPlanWithHttp[i]? = some p) :
    2 ≤ i ∧ i ≤ 13 := by
  have hi : i < 15 := by
    have hlen := (List.getElem?_eq_some.mp h).1
    simpa [eventsPlanWithHttp] using hlen
  interval_cases i <;> simp_all [eventsPlanWithHttp] <;>
    (cases h; simp_all [httpChainPhases])

theorem eventsPlanWithHttp_sched_idx (j : Nat)
    (h : eventsPlanWithHttp[j]? = some Phase.compileScheduledEvents) : j = 0 := by
  have hj : j < 15 := by
    have hlen := (List.getElem?_eq_some.mp h).1
    simpa [eventsPlanWithHttp] using hlen
  interval_cases j <;> simp_all [eventsPlanWithHttp]

theorem eventsPlanWithHttp_cw_idx (j : Nat)
    (h : eventsPlanWithHttp[j]? = some Phase.compileCloudWatchEventEvents) : j = 14 := by
  have hj : j < 15 := by
    have hlen := (List.getElem?_eq_some.mp h).1
    simpa [eventsPlanWithHttp] using hlen
  interval_cases j <;> simp_all [eventsPlanWithHttp]

theorem eventsPlanZero_no_http (i : Nat) (p : Phase)
    (hp : p ∈ httpChainPhases) (h : (compileEventsPhases 0)[i]? = some p) : False := by
  rw [compileEventsPhases_zero] at h
  have hi : i < 3 := by
    have hlen := (List.getElem?_eq_some.mp h).1
    simpa using hlen
  interval_cases i <;> simp_all <;> (cases h; simp_all [httpChainPhases])

/-- C2 counterexample: it is not the case that the HTTP compiler chain
executes before the schedule compiler whenever HTTP-triggered events
exist.  In the run with one http event and no failing phase the trace
has compileScheduledEvents at position 0 and compileRestApi at
position 2. -/
theorem http_chain_before_schedule_refuted :
    ¬ (∀ env : PhaseEnv, 0 < env.httpEventCount →
        ∀ (i j : Nat) (p : Phase), p ∈ httpChainPhases →
          (compileEventsRun env).fst[i]? = some p →
          (compileEventsRun env).fst[j]? = some Phase.compileScheduledEvents →
          i < j) := by
  intro h
  have h2 := h { fails := fun _ => false, httpEventCount := 1 } Nat.one_pos
    2 0 Phase.compileRestApi (by decide) rfl rfl
  exact absurd h2 (by decide)

/-- C2 amended: in every run of the package:compileEvents hook, every
executed step of the HTTP compiler chain comes strictly after the
schedule compiler and strictly before the event-bus (CloudWatch event)
compiler; the event-bus compiler never runs ahead of the HTTP chain,
while the schedule compiler always does. -/
theorem events_hook_order (env : PhaseEnv) (i j : Nat) (p : Phase)
    (hp : p ∈ httpChainPhases)
    (hi : (compileEventsRun env).fst[i]? = some p) :
    ((compileEventsRun env).fst[j]? = some Phase.compileScheduledEvents → j < i) ∧
    ((compileEventsRun env).fst[j]? = some Phase.compileCloudWatchEventEvents → i < j) := by
  have hi' := runChain_getElem env _ i p hi
  by_cases hc : env.httpEventCount = 0
  · rw [hc] at hi'
    exact (eventsPlanZero_no_http i p hp hi').elim
  · rw [compileEventsPhases_pos _ hc] at hi'
    have hrange := eventsPlanWithHttp_http_idx i p hp hi'
    constructor
    · intro hj
      have hj' := runChain_getElem env _ j _ hj
      rw [compileEventsPhases_pos _ hc] at hj'
      have h0 := eventsPlanWithHttp_sched_idx j hj'
      omega
    · intro hj
      have hj' := runChain_getElem env _ j _ hj
      rw [compileEventsPhases_pos _ hc] at hj'
      have h14 := eventsPlanWithHttp_cw_idx j hj'
      omega

/-- Witness for the amended C2 at the run with one http event and no
failing phase. -/
theorem events_hook_order_witness :
    Phase.compileRestApi ∈ httpChainPhases ∧
    (compileEventsRun { fails := fun _ => false, httpEventCount := 1 }).fst[2]? =
      some Phase.compileRestApi ∧
    ((compileEventsRun { fails := fun _ => false, httpEventCount := 1 }).fst[0]? =
        some Phase.compileScheduledEvents → 0 < 2) ∧
    ((compileEventsRun { fails := fun _ => false, httpEventCount := 1 }).fst[14]? =
        some Phase.compileCloudWatchEventEvents → 2 < 14) :=
  ⟨by decide, by decide,
    (events_hook_order { fails := fun _ => false, httpEventCount := 1 } 2 0
      Phase.compileRestApi (by decide) (by decide)).1,
    (events_hook_order { fails := fun _ => false, httpEventCount := 1 } 2 14
      Phase.compileRestApi (by decide) (by decide)).2⟩

/-- C4: each hook chain either resolves having executed every phase of
its plan, or aborts at its first failing phase, executing exactly the
failure-free phases before it plus that phase and none after it. -/
theorem chains_complete_or_abort_at_first_failure (env : PhaseEnv) :
    (((compileFunctionsRun env).snd = true ∧
        (compileFunctionsRun env).fst = compileFunctionsPhases) ∨
      ((compileFunctionsRun env).snd = false ∧
        ∃ l1 p l2, compileFunctionsPhases = l1 ++ p :: l2 ∧
          (compileFunctionsRun env).fst = l1 ++ [p] ∧
          env.fails p = true ∧ ∀ q ∈ l1, env.fails q = false)) ∧
    (((compileEventsRun env).snd = true ∧
        (compileEventsRun env).fst = compileEventsPhases env.httpEventCount) ∨
      ((compileEventsRun env).snd = false ∧
        ∃ l1 p l2, compileEventsPhases env.httpEventCount = l1 ++ p :: l2 ∧
          (compileEventsRun env).fst = l1 ++ [p] ∧
          env.fails p = true ∧ ∀ q ∈ l1, env.fails q = false)) :=
  ⟨runChain_first_failure env compileFunctionsPhases,
   runChain_first_failure env (compileEventsPhases env.httpEventCount)⟩

/-- C5: the package:compileFunctions hook invokes its compilers in the
fixed order IAM role, state machines, activities, alarms,
notifications: the plan is exactly that list, every trace is an
initial segment of it, and a failure-free run executes all of it. -/
theorem compileFunctions_fixed_order (env : PhaseEnv) :
    compileFunctionsPhases =
      [Phase.compileIamRole, Phase.compileStateMachines, Phase.compileActivities,
       Phase.compileAlarms, Phase.compileNotifications] ∧
    (∃ rest, compileFunctionsPhases = (compileFunctionsRun env).fst ++ rest) ∧
    ((∀ p, env.fails p = false) →
      compileFunctionsRun env =
        ([Phase.compileIamRole, Phase.compileStateMachines, Phase.compileActivities,
          Phase.compileAlarms, Phase.compileNotifications], true)) :=
  ⟨rfl, runChain_initial_segment env compileFunctionsPhases,
   fun hok => runChain_all_ok env hok compileFunctionsPhases⟩

/-- Witness for C5 at the failure-free run. -/
theorem compileFunctions_fixed_order_witness :
    (∀ p, ({ fails := fun _ => false, httpEventCount := 0 } : PhaseEnv).fails p = false) ∧
    compileFunctionsRun { fails := fun _ => false, httpEventCount := 0 } =
      ([Phase.compileIamRole, Phase.compileStateMachines, Phase.compileActivities,
        Phase.compileAlarms, Phase.compileNotifications], true) :=
  ⟨fun _ => rfl,
    (compileFunctions_fixed_order
      { fails := fun _ => false, httpEventCount := 0 }).2.2 (fun _ => rfl)⟩

/-- C6: with zero validated HTTP events, no step of the HTTP compiler
chain executes: every executed phase of the package:compileEvents hook
is the schedule compiler, the validation call or the event-bus
compiler. -/
theorem no_http_chain_without_http_events (env : PhaseEnv)
    (hzero : env.httpEventCount = 0) :
    ∀ p ∈ (compileEventsRun env).fst,
      p ∉ httpChainPhases ∧
        (p = Phase.compileScheduledEvents ∨ p = Phase.httpValidate ∨
          p = Phase.compileCloudWatchEventEvents) := by
  intro p hp
  obtain ⟨rest, hplan⟩ :=
    runChain_initial_segment env (compileEventsPhases env.httpEventCount)
  have hmem : p ∈ compileEventsPhases env.httpEventCount := by
    rw [hplan]
    exact List.mem_append_left rest hp
  rw [hzero, compileEventsPhases_zero] at hmem
  simp only [List.mem_cons, List.not_mem_nil, or_false] at hmem
  rcases hmem with rfl | rfl | rfl <;> exact ⟨by decide, by simp⟩

/-- Witness for C6 at the failure-free run with zero http events. -/
theorem no_http_chain_without_http_events_witness :
    ({ fails := fun _ => false, httpEventCount := 0 } : PhaseEnv).httpEventCount = 0 ∧
    Phase.compileScheduledEvents ∈
      (compileEventsRun { fails := fun _ => false, httpEventCount := 0 }).fst ∧
    (Phase.compileScheduledEvents ∉ httpChainPhases ∧
      (Phase.compileScheduledEvents = Phase.compileScheduledEvents ∨
        Phase.compileScheduledEvents = Phase.httpValidate ∨
        Phase.compileScheduledEvents = Phase.compileCloudWatchEventEvents)) :=
  ⟨rfl, by decide,
    no_http_chain_without_http_events
      { fails := fun _ => false, httpEventCount := 0 } rfl
      Phase.compileScheduledEvents (by decide)⟩

/-! ### The post-deploy display step

ServerlessStepFunctions.display (src/lib/index.js lines 204-253)
walks every configured state machine, renders one endpoint line per
http event, and logs the assembled message; with no http bindings it
returns the empty string without logging.  The JavaScript string
operations it uses (split on a one-character separator, toUpperCase,
Array.join) are embedded as structural recursions over the character
data of the string so that they compute. -/

/-- Helper for splitOnChar: accumulates the current segment reversed. -/
def splitCharsAux (sep : Char) : List Char → List Char → List (List Char)
  | [], acc => [acc.reverse]
  | c :: cs, acc =>
    if c = sep then acc.reverse :: splitCharsAux sep cs []
    else splitCharsAux sep cs (c :: acc)

/-- JavaScript String.prototype.split with a one-character separator:
the empty string yields one empty segment, adjacent separators yield
empty segments. -/
def splitOnChar (sep : Char) (s : String) : List String :=
  (splitCharsAux sep s.data []).map (fun l => ⟨l⟩)

/-- JavaScript String.prototype.toUpperCase restricted to the ASCII
characters appearing in HTTP method names. -/
def strToUpper (s : String) : String := ⟨s.data.map Char.toUpper⟩

/-- JavaScript Array.prototype.join. -/
def joinWith (sep : String) : List String → String
  | [] => ""
  | [s] => s
  | s :: rest => s ++ sep ++ joinWith sep rest

/-- The path normalization of the display step (src/lib/index.js line
235): a path other than the literal root is split on the slash, empty
segments are dropped, the rest rejoined behind one leading slash; the
root path renders as the empty string. -/
def normalizePath (path : String) : String :=
  if path = "/" then ""
  else "/" ++ joinWith "/" ((splitOnChar '/' path).filter (fun seg => seg != ""))

/-- The two shapes an http event binding takes in the configuration:
an object with method and path fields, or one string holding both. -/
inductive HttpEvent where
  | obj (method : String) (path : String)
  | str (line : String)

/-- Method and path extraction of the display step (src/lib/index.js
lines 228-234): the object shape reads its two fields, the string
shape takes the first two space-separated tokens; the method is
upper-cased.  A string with no second token makes the JavaScript code
dereference undefined, modelled as none. -/
def parseHttpEvent : HttpEvent → Option (String × String)
  | HttpEvent.obj m p => some (strToUpper m, p)
  | HttpEvent.str s =>
    match (splitOnChar ' ' s)[0]?, (splitOnChar ' ' s)[1]? with
    | some m, some p => some (strToUpper m, p)
    | _, _ => none

/-- The single endpoint line appended for one http event
(src/lib/index.js line 236). -/
def httpEventLine (endpointInfo : String) (e : HttpEvent) : Option String :=
  match parseHttpEvent e with
  | some mp => some ("\n  " ++ mp.fst ++ " - " ++ endpointInfo ++ normalizePath mp.snd)
  | none => none

/-- One entry of a state machine events list: an http binding or any
other trigger kind, which the display step skips. -/
inductive Event where
  | http (e : HttpEvent)
  | other

/-- A configured state machine as the display step reads it: its
events field may be absent or not an array (none) or a list. -/
structure StateMachineObj where
  events : Option (List Event)

/-- The data the display step reads: the v3Api flag, the endpoint host
resolved by getEndpointInfo, and the configured state machines. -/
structure DisplayEnv where
  v3Api : Bool
  endpointInfo : String
  stateMachines : List StateMachineObj

/-- The inner forEach of display over one events list: appends the
endpoint line of every http event to the accumulated message; a crash
while rendering one event aborts the whole step (none). -/
def machineLines (endpointInfo : String) : List Event → String → Option String
  | [], acc => some acc
  | Event.other :: rest, acc => machineLines endpointInfo rest acc
  | Event.http e :: rest, acc =>
    match httpEventLine endpointInfo e with
    | some l => machineLines endpointInfo rest (acc ++ l)
    | none => none

/-- The outer loop of display over all state machines, skipping a
machine whose events field is absent or not an array. -/
def allMachineLines (endpointInfo : String) : List StateMachineObj → String → Option String
  | [], acc => some acc
  | sm :: rest, acc =>
    match sm.events with
    | none => allMachineLines endpointInfo rest acc
    | some evs =>
      match machineLines endpointInfo evs acc with
      | some acc2 => allMachineLines endpointInfo rest acc2
      | none => none

/-- The stateMachineMessages string accumulated by display. -/
def displayMessages (env : DisplayEnv) : Option String :=
  allMachineLines env.endpointInfo env.stateMachines ""

/-- The header display prepends before the endpoint lines
(src/lib/index.js lines 210-217); the chalk color escape sequences are
elided as pure terminal styling. -/
def mkHeader (v3 : Bool) : String :=
  if v3 then "\n✔ Serverless StepFunctions Outputs\nendpoints:"
  else "Serverless StepFunctions Outputs\nendpoints:"

/-- ServerlessStepFunctions.display: returns the logged message and
whether logger.log was called; with no accumulated endpoint lines it
returns the empty string without logging (src/lib/index.js lines
243-245). -/
def display (env : DisplayEnv) : Option (String × Bool) :=
  match displayMessages env with
  | none => none
  | some msgs =>
    if msgs = "" then some ("", false)
    else some (mkHeader env.v3Api ++ msgs ++ "\n", true)

/-- The http events of one events list, in order. -/
def eventsHttp : List Event → List HttpEvent
  | [] => []
  | Event.http e :: rest => e :: eventsHttp rest
  | Event.other :: rest => eventsHttp rest

/-- All http events of a state machine list, in traversal order. -/
def httpEventsOfMachines : List StateMachineObj → List HttpEvent
  | [] => []
  | sm :: rest =>
    (match sm.events with
     | none => []
     | some evs => eventsHttp evs) ++ httpEventsOfMachines rest

/-- All http events the display step visits. -/
def httpEventsOf (env : DisplayEnv) : List HttpEvent :=
  httpEventsOfMachines env.stateMachines

/-- Reference rendering: one endpoint line per http event, appended in
order to the accumulator. -/
def linesFor (endpointInfo : String) : List HttpEvent → String → Option String
  | [], acc => some acc
  | e :: rest, acc =>
    match httpEventLine endpointInfo e with
    | some l => linesFor endpointInfo rest (acc ++ l)
    | none => none

theorem machineLines_eq_linesFor (endpointInfo : String) (evs : List Event) :
    ∀ acc, machineLines endpointInfo evs acc =
      linesFor endpointInfo (eventsHttp evs) acc := by
  induction evs with
  | nil => intro acc; rfl
  | cons ev rest ih =>
    intro acc
    cases ev with
    | other => simp [machineLines, eventsHttp, ih]
    | http e =>
      cases hl : httpEventLine endpointInfo e <;>
        simp [machineLines, eventsHttp, linesFor, hl, ih]

theorem linesFor_append (endpointInfo : String) (l1 l2 : List HttpEvent) :
    ∀ acc, linesFor endpointInfo (l1 ++ l2) acc =
      (linesFor endpointInfo l1 acc).bind (linesFor endpointInfo l2) := by
  induction l1 with
  | nil => intro acc; simp [linesFor]
  | cons e rest ih =>
    intro acc
    cases hl : httpEventLine endpointInfo e <;> simp [linesFor, hl, ih]

theorem allMachineLines_eq_linesFor (endpointInfo : String) (sms : List StateMachineObj) :
    ∀ acc, allMachineLines endpointInfo sms acc =
      linesFor endpointInfo (httpEventsOfMachines sms) acc := by
  induction sms with
  | nil => intro acc; rfl
  | cons sm rest ih =>
    intro acc
    cases hev : sm.events with
    | none => simp [allMachineLines, httpEventsOfMachines, hev, ih]
    | some evs =>
      have hml := machineLines_eq_linesFor endpointInfo evs acc
      cases hl : linesFor endpointInfo (eventsHttp evs) acc <;>
        simp [allMachineLines, httpEventsOfMachines, hev, hml, hl,
          linesFor_append, ih]

/-- C3: the display step renders exactly one endpoint line per http
event across all state machines, returns the empty string without
logging when no http binding exists, and for one state machine with
the single http event of method post and path orders logs the message
holding the line POST - host/orders. -/
theorem display_per_http_event (env : DisplayEnv) (host : String) (v3 : Bool) :
    displayMessages env = linesFor env.endpointInfo (httpEventsOf env) "" ∧
    (httpEventsOf env = [] → display env = some ("", false)) ∧
    display { v3Api := v3, endpointInfo := host,
              stateMachines :=
                [{ events := some [Event.http (HttpEvent.obj "post" "orders")] }] } =
      some (mkHeader v3 ++ "\n  POST - " ++ host ++ "/orders" ++ "\n", true) := by
  refine ⟨allMachineLines_eq_linesFor env.endpointInfo env.stateMachines "", ?_, ?_⟩
  · intro hempty
    have hm : displayMessages env = some "" := by
      calc displayMessages env
          = linesFor env.endpointInfo (httpEventsOf env) "" :=
            allMachineLines_eq_linesFor env.endpointInfo env.stateMachines ""
        _ = linesFor env.endpointInfo [] "" := by rw [hempty]
        _ = some "" := rfl
    simp [display, hm]
  · have hmsgs : displayMessages
        { v3Api := v3, endpointInfo := host,
          stateMachines :=
            [{ events := some [Event.http (HttpEvent.obj "post" "orders")] }] } =
        some ("\n  POST - " ++ host ++ "/orders") := rfl
    have hne : ("\n  POST - " ++ host ++ "/orders") ≠ "" := by
      intro h
      have hlen := congrArg String.length h
      simp [String.length_append] at hlen
      exact absurd hlen.2 (by decide)
    simp only [display, hmsgs, hne, if_neg]
    simp [String.append_assoc]

/-- Witness for C3 at a configuration with no http binding. -/
theorem display_per_http_event_witness :
    httpEventsOf { v3Api := false, endpointInfo := "h",
                   stateMachines := [{ events := some [Event.other] }, { events := none }] } = [] ∧
    display { v3Api := false, endpointInfo := "h",
              stateMachines := [{ events := some [Event.other] }, { events := none }] } =
      some ("", false) :=
  ⟨rfl,
    (display_per_http_event
      { v3Api := false, endpointInfo := "h",
        stateMachines := [{ events := some [Event.other] }, { events := none }] }
      "h" false).2.1 rfl⟩

/-- C10: the display step accepts an object-shaped http event with
method and path fields and a string-shaped one whose first
space-separated token is the method and second the path; both shapes
upper-case the method; the path is normalized by dropping empty
segments and prefixing one slash, and the root path renders as the
empty string. -/
theorem http_event_shapes (m p s host : String) :
    parseHttpEvent (HttpEvent.obj m p) = some (strToUpper m, p) ∧
    ((splitOnChar ' ' s)[0]? = some m → (splitOnChar ' ' s)[1]? = some p →
      parseHttpEvent (HttpEvent.str s) = some (strToUpper m, p)) ∧
    httpEventLine host (HttpEvent.obj m p) =
      some ("\n  " ++ strToUpper m ++ " - " ++ host ++ normalizePath p) ∧
    (p ≠ "/" → normalizePath p =
      "/" ++ joinWith "/" ((splitOnChar '/' p).filter (fun seg => seg != ""))) ∧
    normalizePath "/" = "" ∧
    normalizePath "orders" = "/orders" ∧
    normalizePath "a//b/" = "/a/b" := by
  refine ⟨rfl, ?_, rfl, ?_, rfl, rfl, by decide⟩
  · intro h0 h1
    simp [parseHttpEvent, h0, h1]
  · intro hp
    simp [normalizePath, hp]

/-- Witness for C10 at the string shape post orders and the path
orders. -/
theorem http_event_shapes_witness :
    (splitOnChar ' ' "post orders")[0]? = some "post" ∧
    (splitOnChar ' ' "post orders")[1]? = some "orders" ∧
    parseHttpEvent (HttpEvent.str "post orders") = some ("POST", "orders") ∧
    "orders" ≠ "/" ∧
    normalizePath "orders" =
      "/" ++ joinWith "/" ((splitOnChar '/' "orders").filter (fun seg => seg != "")) :=
  ⟨rfl, rfl,
    (http_event_shapes "post" "orders" "post orders" "h").2.1 rfl rfl,
    by decide,
    (http_event_shapes "post" "orders" "post orders" "h").2.2.2.1 (by decide)⟩

/-! ### Constructor naming context and pipeline determinism -/

/-- The provider fields the constructor reads
(src/lib/index.js lines 42-44). -/
structure ProviderConfig where
  region : String
  stage : Option String

/-- The stage fallback of src/lib/index.js line 44: the provider stage
or the literal ap-southeast-2; under JavaScript truthiness a missing
stage and the empty string both fall back. -/
def resolveStage (providerStage : Option String) : String :=
  match providerStage with
  | some st => if st = "" then "ap-southeast-2" else st
  | none => "ap-southeast-2"

/-- The read-only naming context the constructor stores on the plugin
object (this.service, this.stage, this.region); every later name
resolution reads these fields. -/
structure NamingContext where
  service : String
  stage : String
  region : String
deriving DecidableEq

/-- The constructor computation of the naming context
(src/lib/index.js lines 42-44). -/
def constructorContext (service : String) (provider : ProviderConfig) : NamingContext :=
  { service := service
    stage := resolveStage provider.stage
    region := provider.region }

/-- C9: when the provider configuration supplies no stage, the
constructor sets the stage of the naming context to the constant
ap-southeast-2, which is not the conventional default dev. -/
theorem stage_defaults_to_ap_southeast_2 (service : String) (provider : ProviderConfig)
    (hnone : provider.stage = none) :
    (constructorContext service provider).stage = "ap-southeast-2" ∧
    (constructorContext service provider).stage ≠ "dev" := by
  constructor
  · simp [constructorContext, resolveStage, hnone]
  · simp [constructorContext, resolveStage, hnone]

/-- Witness for C9 at a provider with no stage value. -/
theorem stage_defaults_to_ap_southeast_2_witness :
    ({ region := "us-east-1", stage := none } : ProviderConfig).stage = none ∧
    (constructorContext "myService" { region := "us-east-1", stage := none }).stage =
      "ap-southeast-2" ∧
    (constructorContext "myService" { region := "us-east-1", stage := none }).stage ≠ "dev" :=
  ⟨rfl,
    (stage_defaults_to_ap_southeast_2 "myService" { region := "us-east-1", stage := none } rfl).1,
    (stage_defaults_to_ap_southeast_2 "myService" { region := "us-east-1", stage := none } rfl).2⟩

/-- Modelled from the spec: the root user input of a compilation run.
The bodies of the compiler phases live in ./deploy/... modules that
are not part of src/, so the pipeline below is modelled from the spec
sections 3 and 4: ServiceConfig is immutable once loaded and carries
the declared state machine and activity names. -/
structure ServiceConfig where
  stateMachineNames : List String
  activityNames : List String
deriving DecidableEq

/-- Modelled from the spec: the Naming Resolver, a pure deterministic
function of the naming context, the state machine name and the
resource kind. -/
def resolveName (ctx : NamingContext) (stateMachineName kind : String) : String :=
  ctx.service ++ "-" ++ ctx.stage ++ "-" ++ stateMachineName ++ "-" ++ kind

/-- Modelled from the spec: the compilation pipeline as one function
of the read-only ServiceConfig and NamingContext, accumulating into
the CompiledTemplate the entries each phase emits, in hook order:
IAM roles, then state machines, then activities. -/
def compilePipeline (cfg : ServiceConfig) (ctx : NamingContext) : List (String × String) :=
  cfg.stateMachineNames.map
      (fun n => (resolveName ctx n "Role", "AWS::IAM::Role")) ++
    cfg.stateMachineNames.map
      (fun n => (resolveName ctx n "StateMachine", "AWS::StepFunctions::StateMachine")) ++
    cfg.activityNames.map
      (fun n => (resolveName ctx n "Activity", "AWS::StepFunctions::Activity"))

/-- C8: the compilation pipeline is a deterministic function of its
inputs: two runs on the same ServiceConfig under the same
NamingContext produce identical CompiledTemplate output. -/
theorem compile_pipeline_deterministic (cfg1 cfg2 : ServiceConfig)
    (ctx1 ctx2 : NamingContext) (hcfg : cfg1 = cfg2) (hctx : ctx1 = ctx2) :
    compilePipeline cfg1 ctx1 = compilePipeline cfg2 ctx2 := by
  rw [hcfg, hctx]

/-- Witness for C8 at one concrete configuration compiled twice. -/
theorem compile_pipeline_deterministic_witness :
    ({ stateMachineNames := ["OrderFlow"], activityNames := [] } : ServiceConfig) =
      { stateMachineNames := ["OrderFlow"], activityNames := [] } ∧
    ({ service := "svc", stage := "ap-southeast-2", region := "us-east-1" } : NamingContext) =
      { service := "svc", stage := "ap-southeast-2", region := "us-east-1" } ∧
    compilePipeline { stateMachineNames := ["OrderFlow"], activityNames := [] }
        { service := "svc", stage := "ap-southeast-2", region := "us-east-1" } =
      compilePipeline { stateMachineNames := ["OrderFlow"], activityNames := [] }
        { service := "svc", stage := "ap-southeast-2", region := "us-east-1" } :=
  ⟨rfl, rfl,
    compile_pipeline_deterministic
      { stateMachineNames := ["OrderFlow"], activityNames := [] }
      { stateMachineNames := ["OrderFlow"], activityNames := [] }
      { service := "svc", stage := "ap-southeast-2", region := "us-east-1" }
      { service := "svc", stage := "ap-southeast-2", region := "us-east-1" }
      rfl rfl⟩

end StepFns
